import Mathlib

/-!
Verification of the CFR game-tree / state-store core of `rs-poker`
(`src/arena/cfr/node.rs`, `src/arena/cfr/state_store.rs`).

Modelling conventions:
* Rust `usize` indices become `Nat`; `u32` counters become `Nat` with an
  explicit `% 2^32` where the source increments them.
* Fixed arrays `[T; 52]` become `List` values; the Rust type system
  guarantees length 52, which appears as an explicit hypothesis
  (`n.children.length = 52`) on theorems quantifying over arbitrary nodes.
* `f32` payloads (`total_utility`, blind sizes, stacks) are only carried and
  compared by the modelled code, never computed with, so they are modelled
  by `Rat` as an exact opaque carrier.
* Fatal assertion failures (`assert!`, `expect`, `panic!` in the source)
  are modelled by `Option`: `none` is a fatal failure, `some` is normal
  completion.
* Serialization is modelled structurally: a `Ser…`/`…Helper` type mirrors
  the fields the custom `Serialize` impl writes, and deserialization maps
  the helper back, exactly following the source's custom impls.
-/

/-- Modelled from the spec: the external regret-matching capability
(`little_sorry::RegretMatcher`), which is not part of this repository.
Opaque to the core: only its presence or absence matters, so it is a bare
token carrying no structure the core inspects. -/
structure RegretMatcher where
  token : Nat
deriving DecidableEq

/-- `PlayerData` from `node.rs`: an optionally attached regret matcher and
the stable player identifier. -/
structure PlayerData where
  regret_matcher : Option RegretMatcher
  player_idx : Nat
deriving DecidableEq

/-- `TerminalData` from `node.rs`: the aggregate payoff at a leaf
(`total_utility: f32`, carried exactly). -/
structure TerminalData where
  total_utility : Rat
deriving DecidableEq

/-- `TerminalData::new`. -/
def TerminalData.new (total_utility : Rat) : TerminalData :=
  ⟨total_utility⟩

/-- `NodeData` from `node.rs`: the four node variants. -/
inductive NodeData where
  | root : NodeData
  | chance : NodeData
  | player : PlayerData → NodeData
  | terminal : TerminalData → NodeData
deriving DecidableEq

/-- `NodeData::is_terminal`. -/
def NodeData.is_terminal : NodeData → Bool
  | .terminal _ => true
  | _ => false

/-- `NodeData::is_player`. -/
def NodeData.is_player : NodeData → Bool
  | .player _ => true
  | _ => false

/-- `Node` from `node.rs`. `children` and `count` model the fixed 52-wide
arrays; every node the Rust code builds has both lists of length 52. -/
structure Node where
  idx : Nat
  data : NodeData
  parent : Option Nat
  parent_child_idx : Option Nat
  children : List (Option Nat)
  count : List Nat
deriving DecidableEq

/-- `Node::new_root`: the self-parented root at arena position 0. -/
def Node.new_root : Node :=
  ⟨0, .root, some 0, none, List.replicate 52 none, List.replicate 52 0⟩

/-- `Node::new`. -/
def Node.new (idx parent parent_child_idx : Nat) (data : NodeData) : Node :=
  ⟨idx, data, some parent, some parent_child_idx,
    List.replicate 52 none, List.replicate 52 0⟩

/-- `Node::get_child`: reads slot `idx` of the children array. Rust indexing
on `[Option<usize>; 52]` requires `idx < 52`; all claims stay in bounds. -/
def Node.get_child (n : Node) (idx : Nat) : Option Nat :=
  match n.children[idx]? with
  | none => none
  | some c => c

/-- `Node::get_count`. -/
def Node.get_count (n : Node) (idx : Nat) : Nat :=
  match n.count[idx]? with
  | none => 0
  | some c => c

/-- `Node::set_child`: `assert_eq!(self.children[idx], None)` then writes.
`none` models the fatal assertion (slot occupied, or index out of the
52-wide array). -/
def Node.set_child (n : Node) (idx child : Nat) : Option Node :=
  match n.children[idx]? with
  | none => none
  | some (some _) => none
  | some none => some { n with children := n.children.set idx (some child) }

/-- `Node::increment_count`: `assert!(idx == 0 || !self.data.is_terminal())`
then `self.count[idx] += 1` on the `u32` slot (wrapping modelled as
`% 2^32`). `none` models the fatal assertion or out-of-bounds index. -/
def Node.increment_count (n : Node) (idx : Nat) : Option Node :=
  if idx = 0 ∨ n.data.is_terminal = false then
    match n.count[idx]? with
    | none => none
    | some c => some { n with count := n.count.set idx ((c + 1) % 2 ^ 32) }
  else none

/-- `increment_count` iterated `k` times (fatal failure aborts the run). -/
def incrementCountN : Nat → Node → Nat → Option Node
  | 0, n, _ => some n
  | k + 1, n, e =>
    match n.increment_count e with
    | none => none
    | some m => incrementCountN k m e

/-- What the custom `Serialize for PlayerData` writes: the regret-matcher
field as an explicit absent marker (`&None::<()>`) plus `player_idx`. -/
structure SerPlayerData where
  regret_matcher : Option Unit
  player_idx : Nat
deriving DecidableEq

/-- Custom `Serialize for PlayerData` (`node.rs`): skips the regret matcher,
always writing the absent marker. -/
def PlayerData.serialize (pd : PlayerData) : SerPlayerData :=
  ⟨none, pd.player_idx⟩

/-- Custom `Deserialize for PlayerData` (`node.rs`): reads the helper and
rebuilds with `regret_matcher: None`. -/
def PlayerData.deserialize (h : SerPlayerData) : PlayerData :=
  ⟨none, h.player_idx⟩

/-- Serialized form of `NodeData`: the derived serde impl is structural on
the four variants; only the `Player` payload goes through the custom
`PlayerData` impls. -/
inductive SerNodeData where
  | root : SerNodeData
  | chance : SerNodeData
  | player : SerPlayerData → SerNodeData
  | terminal : TerminalData → SerNodeData
deriving DecidableEq

/-- Derived `Serialize for NodeData`: structural, with the custom
`PlayerData` impl on the `Player` payload and the derived (identity)
impl on `TerminalData`. -/
def NodeData.serialize : NodeData → SerNodeData
  | .root => .root
  | .chance => .chance
  | .player pd => .player pd.serialize
  | .terminal td => .terminal td

/-- Derived `Deserialize for NodeData`. -/
def SerNodeData.deserialize : SerNodeData → NodeData
  | .root => .root
  | .chance => .chance
  | .player h => .player (PlayerData.deserialize h)
  | .terminal td => .terminal td

/-- `NodeHelper` from the custom `Deserialize for Node` in `node.rs`: the
six serialized fields, with the two fixed arrays flattened to
variable-length sequences (the custom `Serialize` writes `to_vec()`). -/
structure NodeHelper where
  idx : Nat
  data : SerNodeData
  parent : Option Nat
  parent_child_idx : Option Nat
  children : List (Option Nat)
  count : List Nat
deriving DecidableEq

/-- Custom `Serialize for Node` (`node.rs`): writes the six fields, the
fixed arrays as variable-length sequences. -/
def Node.serialize (n : Node) : NodeHelper :=
  ⟨n.idx, n.data.serialize, n.parent, n.parent_child_idx, n.children, n.count⟩

/-- The re-padding loop of the custom `Deserialize for Node`: starting from
a default-filled 52-array, copy `xs.iter().enumerate().take(52)`; entries
past index 51 are dropped, a missing tail stays at the default. -/
def padTo52 (d : α) (xs : List α) : List α :=
  xs.take 52 ++ List.replicate (52 - xs.length) d

/-- Custom `Deserialize for Node` (`node.rs`): reads the helper and rebuilds
the fixed arrays by the `take(52)` copy loops. -/
def Node.deserialize (h : NodeHelper) : Node :=
  ⟨h.idx, h.data.deserialize, h.parent, h.parent_child_idx,
    padTo52 none h.children, padTo52 0 h.count⟩

theorem padTo52_of_length_eq (d : α) (xs : List α) (h : xs.length = 52) :
    padTo52 d xs = xs := by
  unfold padTo52
  rw [h]
  simp [List.take_of_length_le (le_of_eq h)]

theorem padTo52_length (d : α) (xs : List α) : (padTo52 d xs).length = 52 := by
  unfold padTo52
  simp [List.length_take]
  omega

theorem padTo52_getElem? (d : α) (xs : List α) (e : Nat) (he : e < 52) :
    (padTo52 d xs)[e]? = some (xs[e]?.getD d) := by
  unfold padTo52
  rcases lt_or_le e xs.length with hl | hl
  · rw [List.getElem?_append_left (by rw [List.length_take]; omega)]
    rw [List.getElem?_take, if_pos he, List.getElem?_eq_getElem hl]
    rfl
  · have htake : xs.take 52 = xs := List.take_of_length_le (by omega)
    rw [htake, List.getElem?_append_right hl, List.getElem?_replicate,
      if_pos (by omega), List.getElem?_eq_none hl]
    rfl

theorem padTo52_take (d : α) (xs : List α) :
    padTo52 d (xs.take 52) = padTo52 d xs := by
  unfold padTo52
  rw [List.take_take]
  have h1 : min 52 52 = 52 := rfl
  rw [h1]
  have h2 : 52 - (xs.take 52).length = 52 - xs.length := by
    rw [List.length_take]
    omega

  rw [h2]

theorem serNodeData_roundtrip_of_not_player (d : NodeData)
    (hd : d.is_player = false) : d.serialize.deserialize = d := by
  cases d with
  | root => rfl
  | chance => rfl
  | player pd => simp [NodeData.is_player] at hd
  | terminal td => rfl

/-- C3: serializing then deserializing any `PlayerData` yields a value whose
`regret_matcher` is absent — whether or not one was attached — and whose
`player_idx` equals the original exactly. -/
theorem playerData_roundtrip (pd : PlayerData) :
    (PlayerData.deserialize (PlayerData.serialize pd)).regret_matcher = none ∧
    (PlayerData.deserialize (PlayerData.serialize pd)).player_idx = pd.player_idx :=
  ⟨rfl, rfl⟩

/-- C4: serializing then deserializing any `Node` whose data is `Root`,
`Chance` or `Terminal` (any parent links, any contents of the 52-slot
arrays) yields an observationally equal node: same `idx`, `parent`,
`parent_child_idx`, same data (hence same terminal utility), and the same
`get_child e` / `get_count e` for every edge label `e < 52`; the fixed
arrays, written as variable-length sequences, are re-padded to full width
on read. -/
theorem node_roundtrip (n : Node) (e : Nat)
    (hc : n.children.length = 52) (hk : n.count.length = 52)
    (hd : n.data.is_player = false) (he : e < 52) :
    (Node.deserialize (Node.serialize n)).idx = n.idx ∧
    (Node.deserialize (Node.serialize n)).parent = n.parent ∧
    (Node.deserialize (Node.serialize n)).parent_child_idx
        = n.parent_child_idx ∧
    (Node.deserialize (Node.serialize n)).data = n.data ∧
    (Node.deserialize (Node.serialize n)).get_child e = n.get_child e ∧
    (Node.deserialize (Node.serialize n)).get_count e = n.get_count e := by
  have hch : (Node.deserialize (Node.serialize n)).children = n.children :=
    padTo52_of_length_eq none n.children hc
  have hco : (Node.deserialize (Node.serialize n)).count = n.count :=
    padTo52_of_length_eq 0 n.count hk
  refine ⟨rfl, rfl, rfl, serNodeData_roundtrip_of_not_player n.data hd, ?_, ?_⟩
  · unfold Node.get_child
    rw [hch]
  · unfold Node.get_count
    rw [hco]

theorem node_roundtrip_witness :
    (Node.deserialize (Node.serialize (Node.new 5 1 2
        (.terminal (TerminalData.new 42))))).idx
      = (Node.new 5 1 2 (.terminal (TerminalData.new 42))).idx ∧
    (Node.deserialize (Node.serialize (Node.new 5 1 2
        (.terminal (TerminalData.new 42))))).parent
      = (Node.new 5 1 2 (.terminal (TerminalData.new 42))).parent ∧
    (Node.deserialize (Node.serialize (Node.new 5 1 2
        (.terminal (TerminalData.new 42))))).parent_child_idx
      = (Node.new 5 1 2 (.terminal (TerminalData.new 42))).parent_child_idx ∧
    (Node.deserialize (Node.serialize (Node.new 5 1 2
        (.terminal (TerminalData.new 42))))).data
      = (Node.new 5 1 2 (.terminal (TerminalData.new 42))).data ∧
    (Node.deserialize (Node.serialize (Node.new 5 1 2
        (.terminal (TerminalData.new 42))))).get_child 7
      = (Node.new 5 1 2 (.terminal (TerminalData.new 42))).get_child 7 ∧
    (Node.deserialize (Node.serialize (Node.new 5 1 2
        (.terminal (TerminalData.new 42))))).get_count 7
      = (Node.new 5 1 2 (.terminal (TerminalData.new 42))).get_count 7 :=
  node_roundtrip (Node.new 5 1 2 (.terminal (TerminalData.new 42))) 7
    (by decide) (by decide) (by decide) (by decide)

/-- C10: `Node` deserialization is total in the lengths of the serialized
`children` and `count` sequences: the rebuilt arrays always have width 52,
slot `e < 52` holds the input entry when present and the default
(`None`/0) when the input was shorter, and entries past index 51 are
silently ignored (deserializing the truncated input gives the same node).
It never fails or indexes out of bounds because of sequence length. -/
theorem node_deserialize_total (h : NodeHelper) (e : Nat) (he : e < 52) :
    (Node.deserialize h).children.length = 52 ∧
    (Node.deserialize h).count.length = 52 ∧
    (Node.deserialize h).get_child e = (h.children[e]?).getD none ∧
    (Node.deserialize h).get_count e = (h.count[e]?).getD 0 ∧
    Node.deserialize h =
      Node.deserialize
        { h with children := h.children.take 52, count := h.count.take 52 } := by
  refine ⟨padTo52_length none h.children, padTo52_length 0 h.count, ?_, ?_, ?_⟩
  · unfold Node.get_child
    have hx : (Node.deserialize h).children[e]? = some ((h.children[e]?).getD none) :=
      padTo52_getElem? none h.children e he
    rw [hx]
  · unfold Node.get_count
    have hx : (Node.deserialize h).count[e]? = some ((h.count[e]?).getD 0) :=
      padTo52_getElem? 0 h.count e he
    rw [hx]
  · unfold Node.deserialize
    rw [padTo52_take none h.children, padTo52_take 0 h.count]

theorem node_deserialize_total_witness :
    (Node.deserialize ⟨3, .chance, some 0, some 1,
        List.replicate 60 (some 9), [4]⟩).children.length = 52 ∧
    (Node.deserialize ⟨3, .chance, some 0, some 1,
        List.replicate 60 (some 9), [4]⟩).count.length = 52 ∧
    (Node.deserialize ⟨3, .chance, some 0, some 1,
        List.replicate 60 (some 9), [4]⟩).get_child 0
      = ((List.replicate 60 (some 9) : List (Option Nat))[0]?).getD none ∧
    (Node.deserialize ⟨3, .chance, some 0, some 1,
        List.replicate 60 (some 9), [4]⟩).get_count 0
      = (([4] : List Nat)[0]?).getD 0 ∧
    Node.deserialize ⟨3, .chance, some 0, some 1,
        List.replicate 60 (some 9), [4]⟩ =
      Node.deserialize ⟨3, .chance, some 0, some 1,
        (List.replicate 60 (some 9)).take 52, ([4] : List Nat).take 52⟩ :=
  node_deserialize_total
    ⟨3, .chance, some 0, some 1, List.replicate 60 (some 9), [4]⟩ 0 (by decide)

/-- C5: for any node `n` and edge `e < 52` whose slot is unoccupied,
`set_child n e c` succeeds, after it `get_child` returns `some c`, and a
second `set_child` on the same edge fails fatally (edges are
write-once). -/
theorem set_child_write_once (n : Node) (e c c2 : Nat)
    (hc : n.children.length = 52) (he : e < 52)
    (hfree : n.get_child e = none) :
    ∃ n', n.set_child e c = some n' ∧ n'.get_child e = some c ∧
      n'.set_child e c2 = none := by
  have hlt : e < n.children.length := hc ▸ he
  have hsome : n.children[e]? = some none := by
    unfold Node.get_child at hfree
    rw [List.getElem?_eq_getElem hlt] at hfree ⊢
    have hfree' : n.children[e] = none := hfree
    rw [hfree']
  refine ⟨{ n with children := n.children.set e (some c) }, ?_, ?_, ?_⟩
  · unfold Node.set_child
    rw [hsome]
  · unfold Node.get_child
    rw [List.getElem?_set_self hlt]
  · unfold Node.set_child
    rw [List.getElem?_set_self hlt]

theorem set_child_write_once_witness :
    ∃ n', (Node.new 1 0 0 .chance).set_child 3 7 = some n' ∧
      n'.get_child 3 = some 7 ∧ n'.set_child 3 9 = none :=
  set_child_write_once (Node.new 1 0 0 .chance) 3 7 9
    (by decide) (by decide) (by decide)

theorem incrementCountN_spec (e : Nat) :
    ∀ (k : Nat) (n : Node), e < n.count.length →
      (e = 0 ∨ n.data.is_terminal = false) →
      n.get_count e + k < 2 ^ 32 →
      ∃ n', incrementCountN k n e = some n' ∧
        n'.get_count e = n.get_count e + k ∧
        n'.count.length = n.count.length ∧ n'.data = n.data := by
  intro k
  induction k with
  | zero =>
    intro n hlt hg hb
    exact ⟨n, rfl, rfl, rfl, rfl⟩
  | succ k ih =>
    intro n hlt hg hb
    obtain ⟨c, hc⟩ : ∃ c, n.count[e]? = some c := by
      rw [List.getElem?_eq_getElem hlt]
      exact ⟨_, rfl⟩
    have hgc : n.get_count e = c := by
      unfold Node.get_count
      rw [hc]
    have hmod : (c + 1) % 2 ^ 32 = c + 1 := Nat.mod_eq_of_lt (by omega)
    have hstep : n.increment_count e =
        some { n with count := n.count.set e (c + 1) } := by
      unfold Node.increment_count
      rw [if_pos hg, hc]
      show some { n with count := n.count.set e ((c + 1) % 2 ^ 32) } = _
      rw [hmod]
    have hmlen : ({ n with count := n.count.set e (c + 1) } :
        Node).count.length = n.count.length := List.length_set n.count e (c + 1)
    have hm : ({ n with count := n.count.set e (c + 1) } :
        Node).get_count e = c + 1 := by
      unfold Node.get_count
      have hx : ({ n with count := n.count.set e (c + 1) } :
          Node).count[e]? = some (c + 1) := List.getElem?_set_self hlt
      rw [hx]
    obtain ⟨n', h1, h2, h3, h4⟩ :=
      ih { n with count := n.count.set e (c + 1) }
        (hmlen ▸ hlt) hg (by rw [hm]; rw [hgc] at hb; omega)
    refine ⟨n', ?_, ?_, ?_, ?_⟩
    · show incrementCountN (k + 1) n e = some n'
      unfold incrementCountN
      rw [hstep]
      exact h1
    · rw [h2, hm, hgc]
      omega
    · rw [h3, hmlen]
    · exact h4

/-- C6: on a freshly constructed node (any variant, any links) and any edge
`e < 52`: the count starts at 0; `increment_count` iterated `k` times
(`k` within the `u32` range) succeeds and yields count `k` whenever `e = 0`
or the node is not Terminal; it fails fatally on a Terminal node at
`e ≠ 0`, and succeeds on edge 0 of a Terminal node and on every edge of a
non-Terminal node. -/
theorem increment_count_spec (idx parent pci : Nat) (d : NodeData) (e k : Nat)
    (he : e < 52) (hk : k < 2 ^ 32) :
    (Node.new idx parent pci d).get_count e = 0 ∧
    ((e = 0 ∨ d.is_terminal = false) →
      ∃ n', incrementCountN k (Node.new idx parent pci d) e = some n' ∧
        n'.get_count e = k) ∧
    (d.is_terminal = true → e ≠ 0 →
      (Node.new idx parent pci d).increment_count e = none) ∧
    (d.is_terminal = true →
      ∃ m, (Node.new idx parent pci d).increment_count 0 = some m) ∧
    (d.is_terminal = false →
      ∃ m, (Node.new idx parent pci d).increment_count e = some m) := by
  have hcnt0 : (Node.new idx parent pci d).get_count e = 0 := by
    unfold Node.get_count Node.new
    rw [List.getElem?_replicate, if_pos he]
  have hlt : e < (Node.new idx parent pci d).count.length := by
    show e < (List.replicate 52 0).length
    rw [List.length_replicate]
    exact he
  refine ⟨hcnt0, ?_, ?_, ?_, ?_⟩
  · intro hg
    obtain ⟨n', h1, h2, _, _⟩ :=
      incrementCountN_spec e k (Node.new idx parent pci d) hlt hg
        (by rw [hcnt0]; omega)
    exact ⟨n', h1, by rw [h2, hcnt0]; omega⟩
  · intro ht hne
    unfold Node.increment_count
    rw [if_neg]
    show ¬(e = 0 ∨ (Node.new idx parent pci d).data.is_terminal = false)
    rintro (h0 | hf)
    · exact hne h0
    · show False
      rw [show (Node.new idx parent pci d).data = d from rfl, ht] at hf
      cases hf
  · intro _
    have hx : (Node.new idx parent pci d).count[0]? = some 0 := by
      show (List.replicate 52 (0 : Nat))[0]? = some 0
      rw [List.getElem?_replicate, if_pos (by omega)]
    refine ⟨{ Node.new idx parent pci d with
        count := (Node.new idx parent pci d).count.set 0 ((0 + 1) % 2 ^ 32) },
      ?_⟩
    unfold Node.increment_count
    rw [if_pos (Or.inl rfl), hx]
  · intro hf
    have hx : (Node.new idx parent pci d).count[e]? = some 0 := by
      show (List.replicate 52 (0 : Nat))[e]? = some 0
      rw [List.getElem?_replicate, if_pos he]
    refine ⟨{ Node.new idx parent pci d with
        count := (Node.new idx parent pci d).count.set e ((0 + 1) % 2 ^ 32) },
      ?_⟩
    unfold Node.increment_count
    rw [if_pos (Or.inr
      (show (Node.new idx parent pci d).data.is_terminal = false from hf)), hx]

theorem increment_count_spec_witness :
    (Node.new 1 0 0 .chance).get_count 5 = 0 ∧
    ((5 = 0 ∨ NodeData.chance.is_terminal = false) →
      ∃ n', incrementCountN 3 (Node.new 1 0 0 .chance) 5 = some n' ∧
        n'.get_count 5 = 3) ∧
    (NodeData.chance.is_terminal = true → 5 ≠ 0 →
      (Node.new 1 0 0 .chance).increment_count 5 = none) ∧
    (NodeData.chance.is_terminal = true →
      ∃ m, (Node.new 1 0 0 .chance).increment_count 0 = some m) ∧
    (NodeData.chance.is_terminal = false →
      ∃ m, (Node.new 1 0 0 .chance).increment_count 5 = some m) :=
  increment_count_spec 1 0 0 .chance 5 3 (by decide) (by decide)

/-- Modelled from the spec: the starting-configuration collaborator
`GameState` (`src/arena/game_state.rs` is not provided). An opaque,
immutable value the core stores and returns verbatim; its fields follow the
spec's snapshot scenario (per-player starting stacks, big blind, small
blind, ante, first actor index). Monetary `f32` amounts are carried exactly
as `Rat`; the core never computes with them. -/
structure GameState where
  starting_stacks : List Rat
  big_blind : Rat
  small_blind : Rat
  ante : Rat
  to_act_idx : Nat
deriving DecidableEq

/-- Modelled from the spec: `TraversalState` (`src/arena/cfr/state.rs` is
not provided). A point-in-time cursor: current node, chosen edge, active
player; copyable and compared by value. -/
structure TraversalState where
  node_idx : Nat
  chosen_child_idx : Nat
  player_idx : Nat
deriving DecidableEq

/-- Modelled from the spec: `TraversalState::new`. -/
def TraversalState.new (node_idx chosen_child_idx player_idx : Nat) :
    TraversalState :=
  ⟨node_idx, chosen_child_idx, player_idx⟩

/-- Modelled from the spec: `TraversalState::new_root` — the permanent root
cursor for a player; traversals start at the root node (arena position 0)
about to follow its 0th child. -/
def TraversalState.new_root (player_idx : Nat) : TraversalState :=
  ⟨0, 0, player_idx⟩

/-- Modelled from the spec: `CFRState` (`src/arena/cfr/state.rs` is not
provided). Owns an index-addressed node arena plus the starting game
configuration used to construct it. The tree-handle aliasing of `CFRState`
is not needed by the claims below, so a tree is modelled by its value. -/
structure CFRState where
  starting_game_state : GameState
  nodes : List Node
deriving DecidableEq

/-- Modelled from the spec: `CFRState::new` stores the starting
configuration verbatim and seeds the arena with the unique root node at
position 0. -/
def CFRState.new (game_state : GameState) : CFRState :=
  ⟨game_state, [Node.new_root]⟩

/-- `StateStoreInternal` from `state_store.rs`: the shared storage behind a
`StateStore` handle — the tree sequence and the per-player traversal
stacks (push/pop at the tail). -/
structure StateStoreInternal where
  cfr_states : List CFRState
  traversal_states : List (List TraversalState)
deriving DecidableEq

/-- `StateStore::new`: empty storage. -/
def StateStoreInternal.empty : StateStoreInternal :=
  ⟨[], []⟩

/-- `StateStore::len`. -/
def StateStoreInternal.len (s : StateStoreInternal) : Nat :=
  s.cfr_states.length

/-- `StateStore::traversal_len`: `map_or(0, |t| t.len())` over
`traversal_states.get(player_idx)`. -/
def StateStoreInternal.traversal_len (s : StateStoreInternal)
    (player_idx : Nat) : Nat :=
  match s.traversal_states[player_idx]? with
  | none => 0
  | some t => t.length

/-- `StateStore::peek_traversal`: optional copy of the top cursor; `none`
(not a failure) when the player is unknown or the stack is empty. -/
def StateStoreInternal.peek_traversal (s : StateStoreInternal)
    (player_idx : Nat) : Option TraversalState :=
  match s.traversal_states[player_idx]? with
  | none => none
  | some t => t.getLast?

/-- `StateStore::new_state` (`state_store.rs`), exactly in source order:
push a fresh tree onto `cfr_states`; push a brand-new one-element stack
`[new_root player_idx]` onto the END of `traversal_states`; then look up
the stack at index `player_idx` (fatal if out of range), duplicate its top
cursor (fatal if that stack is empty), push the duplicate there, and return
a handle to the tree at slot `player_idx` (fatal if out of range) together
with the duplicate. `none` models the fatal `panic!`/`expect` paths. -/
def StateStoreInternal.new_state (s : StateStoreInternal)
    (game_state : GameState) (player_idx : Nat) :
    Option ((CFRState × TraversalState) × StateStoreInternal) :=
  let cfr_states := s.cfr_states ++ [CFRState.new game_state]
  let traversal_states :=
    s.traversal_states ++ [[TraversalState.new_root player_idx]]
  match traversal_states[player_idx]? with
  | none => none
  | some stack =>
    match stack.getLast? with
    | none => none
    | some last =>
      let nts := TraversalState.new last.node_idx last.chosen_child_idx
        last.player_idx
      match cfr_states[player_idx]? with
      | none => none
      | some state =>
        some ((state, nts),
          ⟨cfr_states, traversal_states.set player_idx (stack ++ [nts])⟩)

/-- `StateStore::push_traversal` (`state_store.rs`): duplicate the top
cursor of the player's stack and push the duplicate; return the tree at
slot `player_idx` and the duplicate. `none` models the fatal paths (no
stack for the player, empty stack, no tree at the slot). -/
def StateStoreInternal.push_traversal (s : StateStoreInternal)
    (player_idx : Nat) :
    Option ((CFRState × TraversalState) × StateStoreInternal) :=
  match s.traversal_states[player_idx]? with
  | none => none
  | some stack =>
    match stack.getLast? with
    | none => none
    | some last =>
      let nts := TraversalState.new last.node_idx last.chosen_child_idx
        last.player_idx
      match s.cfr_states[player_idx]? with
      | none => none
      | some state =>
        some ((state, nts),
          ⟨s.cfr_states, s.traversal_states.set player_idx (stack ++ [nts])⟩)

/-- `StateStore::pop_traversal` (`state_store.rs`): fatal (`expect`) when no
stack exists at `player_idx`, fatal (`assert!`) when that stack is empty,
otherwise remove the top cursor. -/
def StateStoreInternal.pop_traversal (s : StateStoreInternal)
    (player_idx : Nat) : Option StateStoreInternal :=
  match s.traversal_states[player_idx]? with
  | none => none
  | some stack =>
    if stack.isEmpty then none
    else some ⟨s.cfr_states, s.traversal_states.set player_idx stack.dropLast⟩

/-- `pop_traversal` iterated `k` times (fatal failure aborts the run). -/
def popTraversalN : Nat → StateStoreInternal → Nat → Option StateStoreInternal
  | 0, s, _ => some s
  | k + 1, s, p =>
    match s.pop_traversal p with
    | none => none
    | some s' => popTraversalN k s' p

/-- `StateStore::merge_from` (`state_store.rs`): push every tree of `other`,
in order, onto `self.cfr_states`, then every per-player stack of `other`,
in order, onto `self.traversal_states`. -/
def StateStoreInternal.merge_from (s other : StateStoreInternal) :
    StateStoreInternal :=
  let cfr_states := other.cfr_states.foldl (fun acc st => acc ++ [st])
    s.cfr_states
  let traversal_states := other.traversal_states.foldl
    (fun acc t => acc ++ [t]) s.traversal_states
  ⟨cfr_states, traversal_states⟩

theorem foldl_push_eq_append (l acc : List α) :
    l.foldl (fun a x => a ++ [x]) acc = acc ++ l := by
  induction l generalizing acc with
  | nil => simp
  | cons x xs ih => simp [ih]

theorem lt_length_of_getElem?_eq_some {l : List α} {n : Nat} {a : α}
    (h : l[n]? = some a) : n < l.length := by
  by_contra hn
  rw [List.getElem?_eq_none (by omega)] at h
  cases h

/-- C7: merging a store with `A` trees with a store with `B` trees leaves
`A + B` trees; the first `A` tree entries and the pre-existing per-player
stacks of `self` are unchanged, and the appended tree entries and appended
per-player stacks equal `other`'s entries in their original order (no
deduplication, no renumbering). -/
theorem merge_from_spec (s o : StateStoreInternal) :
    (s.merge_from o).len = s.len + o.len ∧
    (s.merge_from o).cfr_states.take s.len = s.cfr_states ∧
    (s.merge_from o).cfr_states.drop s.len = o.cfr_states ∧
    (s.merge_from o).traversal_states.take s.traversal_states.length
      = s.traversal_states ∧
    (s.merge_from o).traversal_states.drop s.traversal_states.length
      = o.traversal_states := by
  have h1 : (s.merge_from o).cfr_states = s.cfr_states ++ o.cfr_states :=
    foldl_push_eq_append o.cfr_states s.cfr_states
  have h2 : (s.merge_from o).traversal_states
      = s.traversal_states ++ o.traversal_states :=
    foldl_push_eq_append o.traversal_states s.traversal_states
  refine ⟨?_, ?_, ?_, ?_, ?_⟩
  · show (s.merge_from o).cfr_states.length
      = s.cfr_states.length + o.cfr_states.length
    rw [h1, List.length_append]
  · show (s.merge_from o).cfr_states.take s.cfr_states.length = s.cfr_states
    rw [h1, List.take_left]
  · show (s.merge_from o).cfr_states.drop s.cfr_states.length = o.cfr_states
    rw [h1, List.drop_left]
  · rw [h2, List.take_left]
  · rw [h2, List.drop_left]

/-- C9: `pop_traversal p` fails fatally exactly when no traversal stack
exists at index `p` (the player was never seeded) or when that stack is
empty; on success it removes exactly the top cursor — `traversal_len p`
drops by 1, the stack at `p` becomes its own `dropLast` — while `len()`
and every other player's stack are unchanged. -/
theorem pop_traversal_spec (s : StateStoreInternal) (p q : Nat) (hq : q ≠ p) :
    ((s.pop_traversal p).isNone = true ↔
      (s.traversal_states[p]? = none ∨ s.traversal_states[p]? = some [])) ∧
    (s.pop_traversal p).map (fun t => t.traversal_len p)
      = (s.pop_traversal p).map (fun _ => s.traversal_len p - 1) ∧
    (s.pop_traversal p).map (fun t => t.traversal_states[p]?)
      = (s.pop_traversal p).map
          (fun _ => (s.traversal_states[p]?).map List.dropLast) ∧
    (s.pop_traversal p).map StateStoreInternal.len
      = (s.pop_traversal p).map (fun _ => s.len) ∧
    (s.pop_traversal p).map (fun t => t.traversal_states[q]?)
      = (s.pop_traversal p).map (fun _ => s.traversal_states[q]?) := by
  cases hx : s.traversal_states[p]? with
  | none =>
    have hpop : s.pop_traversal p = none := by
      unfold StateStoreInternal.pop_traversal
      rw [hx]
    rw [hpop]
    exact ⟨⟨fun _ => Or.inl rfl, fun _ => rfl⟩, rfl, rfl, rfl, rfl⟩
  | some stack =>
    have hp : p < s.traversal_states.length := lt_length_of_getElem?_eq_some hx
    cases hstack : stack.isEmpty with
    | true =>
      have hnil : stack = [] := List.isEmpty_iff.mp hstack
      have hpop : s.pop_traversal p = none := by
        unfold StateStoreInternal.pop_traversal
        rw [hx]
        show (if stack.isEmpty = true then none
          else some (⟨s.cfr_states, s.traversal_states.set p stack.dropLast⟩ :
            StateStoreInternal)) = none
        rw [hstack, if_pos rfl]
      rw [hpop]
      exact ⟨⟨fun _ => Or.inr (by rw [hnil]), fun _ => rfl⟩, rfl, rfl, rfl, rfl⟩
    | false =>
      have hpop : s.pop_traversal p =
          some ⟨s.cfr_states, s.traversal_states.set p stack.dropLast⟩ := by
        unfold StateStoreInternal.pop_traversal
        rw [hx]
        show (if stack.isEmpty = true then none
          else some (⟨s.cfr_states, s.traversal_states.set p stack.dropLast⟩ :
            StateStoreInternal)) = _
        rw [hstack, if_neg (fun h => Bool.noConfusion h)]
      have hset : (s.traversal_states.set p stack.dropLast)[p]?
          = some stack.dropLast := List.getElem?_set_self hp
      have hL : (⟨s.cfr_states, s.traversal_states.set p stack.dropLast⟩ :
          StateStoreInternal).traversal_len p = stack.dropLast.length := by
        unfold StateStoreInternal.traversal_len
        rw [hset]
      have hlen : s.traversal_len p = stack.length := by
        unfold StateStoreInternal.traversal_len
        rw [hx]
      rw [hpop]
      refine ⟨⟨?_, ?_⟩, ?_, ?_, rfl, ?_⟩
      · intro habs
        exact Bool.noConfusion habs
      · rintro (h | h)
        · exact Option.noConfusion h
        · injection h with h
          rw [h] at hstack
          simp at hstack
      · show some ((⟨s.cfr_states, s.traversal_states.set p stack.dropLast⟩ :
            StateStoreInternal).traversal_len p) = some (s.traversal_len p - 1)
        rw [hL, hlen, List.length_dropLast]
      · show some ((s.traversal_states.set p stack.dropLast)[p]?)
          = some ((some stack).map List.dropLast)
        rw [hset]
        rfl
      · show some ((s.traversal_states.set p stack.dropLast)[q]?)
          = some (s.traversal_states[q]?)
        rw [List.getElem?_set_ne (Ne.symm hq)]

/-- The starting configuration used by the repository's tests:
`GameState::new_starting(vec![100.0; 3], 10.0, 5.0, 0.0, 0)`. -/
def sampleGameState : GameState :=
  ⟨[100, 100, 100], 10, 5, 0, 0⟩

/-- A second, different starting configuration (bigger blinds). -/
def sampleGameState2 : GameState :=
  ⟨[100, 100, 100], 20, 10, 0, 0⟩

/-- The store produced by `new_state(sampleGameState, 0)` on an empty store:
one tree, and player 0's stack holding the permanent root cursor plus the
first working copy. -/
def sampleStore : StateStoreInternal :=
  ⟨[CFRState.new sampleGameState],
    [[TraversalState.new_root 0, TraversalState.new 0 0 0]]⟩

/-- C2 counterexample: reachable by public operations alone — seed a store
with `new_state(cfg, 0)` (stack depth 2), then pop twice. Both pops
complete without fatal failure and `traversal_len 0` reaches 0: the root
cursor at the bottom is removed by the second pop, so the claimed
"never empty" invariant is false. A third pop then fails. -/
theorem pop_traversal_counterexample :
    StateStoreInternal.new_state StateStoreInternal.empty sampleGameState 0
      = some ((CFRState.new sampleGameState, TraversalState.new 0 0 0),
        sampleStore) ∧
    (∃ s2 s3, sampleStore.pop_traversal 0 = some s2 ∧
      s2.pop_traversal 0 = some s3 ∧
      s3.traversal_len 0 = 0 ∧ s3.pop_traversal 0 = none) := by
  refine ⟨rfl, ⟨⟨[CFRState.new sampleGameState], [[TraversalState.new_root 0]]⟩,
    ⟨[CFRState.new sampleGameState], [[]]⟩, rfl, rfl, rfl, rfl⟩⟩

theorem pop_to_empty_aux : ∀ (n : Nat) (s : StateStoreInternal) (p : Nat),
    p < s.traversal_states.length → s.traversal_len p = n →
    ∃ s', popTraversalN n s p = some s' ∧ s'.traversal_len p = 0 ∧
      s'.pop_traversal p = none := by
  intro n
  induction n with
  | zero =>
    intro s p hp hn
    obtain ⟨stack, hx⟩ : ∃ stack, s.traversal_states[p]? = some stack := by
      rw [List.getElem?_eq_getElem hp]
      exact ⟨_, rfl⟩
    have hstacklen : stack.length = 0 := by
      unfold StateStoreInternal.traversal_len at hn
      rw [hx] at hn
      exact hn
    have hnil : stack = [] := List.length_eq_zero.mp hstacklen
    refine ⟨s, rfl, hn, ?_⟩
    unfold StateStoreInternal.pop_traversal
    rw [hx, hnil]
    rfl
  | succ n ih =>
    intro s p hp hn
    obtain ⟨stack, hx⟩ : ∃ stack, s.traversal_states[p]? = some stack := by
      rw [List.getElem?_eq_getElem hp]
      exact ⟨_, rfl⟩
    have hstacklen : stack.length = n + 1 := by
      unfold StateStoreInternal.traversal_len at hn
      rw [hx] at hn
      exact hn
    have hne : stack.isEmpty = false := by
      cases stack with
      | nil => cases hstacklen
      | cons a l => rfl
    have hpop : s.pop_traversal p =
        some ⟨s.cfr_states, s.traversal_states.set p stack.dropLast⟩ := by
      unfold StateStoreInternal.pop_traversal
      rw [hx]
      show (if stack.isEmpty = true then none
        else some (⟨s.cfr_states, s.traversal_states.set p stack.dropLast⟩ :
          StateStoreInternal)) = _
      rw [hne, if_neg (fun h => Bool.noConfusion h)]
    have hp2 : p < (s.traversal_states.set p stack.dropLast).length := by
      rw [List.length_set]
      exact hp
    have hlen2 : (⟨s.cfr_states, s.traversal_states.set p stack.dropLast⟩ :
        StateStoreInternal).traversal_len p = n := by
      unfold StateStoreInternal.traversal_len
      rw [List.getElem?_set_self hp]
      show stack.dropLast.length = n
      rw [List.length_dropLast, hstacklen]
      omega
    obtain ⟨s', h1, h2, h3⟩ :=
      ih ⟨s.cfr_states, s.traversal_states.set p stack.dropLast⟩ p hp2 hlen2
    refine ⟨s', ?_, h2, h3⟩
    show popTraversalN (n + 1) s p = some s'
    unfold popTraversalN
    rw [hpop]
    exact h1

/-- C2 (amended): the root cursor is NOT protected — `pop_traversal` guards
only against an empty stack, so for any player `p` with a stack (seeded or
not), popping `traversal_len p` times completes without fatal failure and
leaves `traversal_len p = 0` (the permanent root cursor is removed by the
last pop); only the next pop fails. -/
theorem pop_to_empty (s : StateStoreInternal) (p : Nat)
    (hp : p < s.traversal_states.length) :
    ∃ s', popTraversalN (s.traversal_len p) s p = some s' ∧
      s'.traversal_len p = 0 ∧ s'.pop_traversal p = none :=
  pop_to_empty_aux (s.traversal_len p) s p hp rfl

theorem pop_to_empty_witness :
    ∃ s', popTraversalN (sampleStore.traversal_len 0) sampleStore 0
        = some s' ∧
      s'.traversal_len 0 = 0 ∧ s'.pop_traversal 0 = none :=
  pop_to_empty sampleStore 0 (by decide)

theorem new_state_eval (s : StateStoreInternal) (cfg : GameState) (p : Nat)
    (hp1 : p = s.traversal_states.length) (hp2 : p = s.cfr_states.length) :
    s.new_state cfg p = some ((CFRState.new cfg, TraversalState.new 0 0 p),
      ⟨s.cfr_states ++ [CFRState.new cfg],
        (s.traversal_states ++ [[TraversalState.new_root p]]).set p
          [TraversalState.new_root p, TraversalState.new 0 0 p]⟩) := by
  have h1 : (s.traversal_states ++ [[TraversalState.new_root p]])[p]?
      = some [TraversalState.new_root p] := by
    rw [hp1]
    exact List.getElem?_concat_length _ _
  have h2 : (s.cfr_states ++ [CFRState.new cfg])[p]?
      = some (CFRState.new cfg) := by
    rw [hp2]
    exact List.getElem?_concat_length _ _
  simp only [StateStoreInternal.new_state]
  rw [h1, h2]
  rfl

/-- C1 counterexample: on the reachable store built by one
`new_state(sampleGameState, 0)` call (so `traversal_len 0 = 2`), a second
call `new_state(sampleGameState2, 0)` completes without fatal failure but
raises `traversal_len 0` only to 3 — not by 2 as claimed — and returns the
OLD tree at slot 0, whose starting configuration is `sampleGameState`, not
the `sampleGameState2` just passed in (the new tree and the newly seeded
stack land at the end of their sequences, index 1). -/
theorem new_state_counterexample :
    StateStoreInternal.new_state StateStoreInternal.empty sampleGameState 0
      = some ((CFRState.new sampleGameState, TraversalState.new 0 0 0),
        sampleStore) ∧
    sampleStore.traversal_len 0 = 2 ∧
    (∃ r s2, sampleStore.new_state sampleGameState2 0 = some (r, s2) ∧
      s2.traversal_len 0 = 3 ∧
      s2.len = sampleStore.len + 1 ∧
      r.1.starting_game_state ≠ sampleGameState2 ∧
      r.1.starting_game_state = sampleGameState) := by
  refine ⟨rfl, rfl,
    ⟨(CFRState.new sampleGameState, TraversalState.new 0 0 0),
      ⟨[CFRState.new sampleGameState, CFRState.new sampleGameState2],
        [[TraversalState.new_root 0, TraversalState.new 0 0 0,
          TraversalState.new 0 0 0], [TraversalState.new_root 0]]⟩,
      rfl, rfl, rfl, ?_, rfl⟩⟩
  intro h
  have : (10 : Rat) = 20 := congrArg GameState.big_blind h
  exact absurd this (by decide)

/-- C1 (amended): the claimed behavior holds exactly for the conventional
call pattern, where `p` equals the current number of traversal stacks and
of trees (as when player `p`'s tree is created `p`-th, in order): then
`new_state(cfg, p)` appends one tree (`len` grows by 1), takes player `p`'s
stack from 0 to exactly 2 entries (root cursor plus working copy), and
returns the tree just appended, whose starting configuration is `cfg`. For
`p` below the current count the stack grows by only 1 and the returned
tree is the pre-existing one at slot `p` (see the counterexample). -/
theorem new_state_conventional (s : StateStoreInternal) (cfg : GameState)
    (p : Nat) (hp1 : p = s.traversal_states.length)
    (hp2 : p = s.cfr_states.length) :
    ∃ st tr s', s.new_state cfg p = some ((st, tr), s') ∧
      s'.len = s.len + 1 ∧
      s.traversal_len p = 0 ∧
      s'.traversal_len p = 2 ∧
      st.starting_game_state = cfg ∧
      s'.cfr_states[p]? = some st := by
  refine ⟨CFRState.new cfg, TraversalState.new 0 0 p,
    ⟨s.cfr_states ++ [CFRState.new cfg],
      (s.traversal_states ++ [[TraversalState.new_root p]]).set p
        [TraversalState.new_root p, TraversalState.new 0 0 p]⟩,
    new_state_eval s cfg p hp1 hp2, ?_, ?_, ?_, rfl, ?_⟩
  · show (s.cfr_states ++ [CFRState.new cfg]).length = s.cfr_states.length + 1
    rw [List.length_append]
    rfl
  · unfold StateStoreInternal.traversal_len
    rw [List.getElem?_eq_none (le_of_eq hp1.symm)]
  · unfold StateStoreInternal.traversal_len
    rw [List.getElem?_set_self
      (by rw [List.length_append]
          show p < s.traversal_states.length + 1
          omega)]
    rfl
  · show (s.cfr_states ++ [CFRState.new cfg])[p]? = some (CFRState.new cfg)
    rw [hp2]
    exact List.getElem?_concat_length _ _

theorem new_state_conventional_witness :
    ∃ st tr s', StateStoreInternal.new_state StateStoreInternal.empty
        sampleGameState 0 = some ((st, tr), s') ∧
      s'.len = StateStoreInternal.empty.len + 1 ∧
      StateStoreInternal.empty.traversal_len 0 = 0 ∧
      s'.traversal_len 0 = 2 ∧
      st.starting_game_state = sampleGameState ∧
      s'.cfr_states[0]? = some st :=
  new_state_conventional StateStoreInternal.empty sampleGameState 0 rfl rfl

theorem push_traversal_effects (s : StateStoreInternal) (p : Nat)
    (r : CFRState × TraversalState) (s' : StateStoreInternal)
    (h : s.push_traversal p = some (r, s')) :
    s'.traversal_len p = s.traversal_len p + 1 ∧ s'.len = s.len := by
  unfold StateStoreInternal.push_traversal at h
  split at h
  · exact Option.noConfusion h
  · split at h
    · exact Option.noConfusion h
    · split at h
      · exact Option.noConfusion h
      · rename_i x1 stack hx x2 last hl x3 state hc
        injection h with h
        have hs := (congrArg Prod.snd h).symm
        subst hs
        have hp : p < s.traversal_states.length :=
          lt_length_of_getElem?_eq_some hx
        constructor
        · unfold StateStoreInternal.traversal_len
          rw [List.getElem?_set_self hp, hx]
          show (stack ++ [TraversalState.new last.node_idx
            last.chosen_child_idx last.player_idx]).length = stack.length + 1
          rw [List.length_append]
          rfl
        · rfl

theorem new_state_len_effect (s : StateStoreInternal) (cfg : GameState)
    (p : Nat) (r : CFRState × TraversalState) (s' : StateStoreInternal)
    (h : s.new_state cfg p = some (r, s')) : s'.len = s.len + 1 := by
  simp only [StateStoreInternal.new_state] at h
  split at h
  · exact Option.noConfusion h
  · split at h
    · exact Option.noConfusion h
    · split at h
      · exact Option.noConfusion h
      · rename_i x1 stack hx x2 last hl x3 state hc
        injection h with h
        have hs := (congrArg Prod.snd h).symm
        subst hs
        show (s.cfr_states ++ [CFRState.new cfg]).length
          = s.cfr_states.length + 1
        rw [List.length_append]
        rfl

/-- `StateStore` from `state_store.rs`: a value is only a handle
(`Rc<RefCell<StateStoreInternal>>`) onto shared mutable storage. Modelled
as an address into an explicit heap of storage cells. -/
structure StateStore where
  inner : Nat
deriving DecidableEq

/-- The heap of shared cells that `Rc` handles point into. -/
abbrev StoreHeap := List StateStoreInternal

/-- `#[derive(Clone)]` on `StateStore` clones the `Rc` pointer: the address
is copied, the pointed-to storage is not duplicated. -/
def StateStore.clone (h : StateStore) : StateStore :=
  ⟨h.inner⟩

/-- `len()` observed through a handle (dereference the shared cell). -/
def readLen (H : StoreHeap) (h : StateStore) : Option Nat :=
  (H[h.inner]?).map StateStoreInternal.len

/-- `traversal_len(p)` observed through a handle. -/
def readTraversalLen (H : StoreHeap) (h : StateStore) (p : Nat) :
    Option Nat :=
  (H[h.inner]?).map (fun c => c.traversal_len p)

/-- `push_traversal` performed through a handle: mutates the shared cell in
place (`borrow_mut`), leaving every other handle pointing at the updated
cell. -/
def heapPushTraversal (H : StoreHeap) (h : StateStore) (p : Nat) :
    Option StoreHeap :=
  match H[h.inner]? with
  | none => none
  | some cell =>
    match cell.push_traversal p with
    | none => none
    | some (_, cell2) => some (H.set h.inner cell2)

/-- `new_state` performed through a handle: mutates the shared cell in
place. -/
def heapNewState (H : StoreHeap) (h : StateStore) (cfg : GameState)
    (p : Nat) : Option StoreHeap :=
  match H[h.inner]? with
  | none => none
  | some cell =>
    match cell.new_state cfg p with
    | none => none
    | some (_, cell2) => some (H.set h.inner cell2)

/-- C8: a duplicate handle obtained by cloning aliases the same storage:
the clone is the same reference (the pointer is copied, the trees and
stacks are not), every observation through the clone equals the
observation through the original, and a mutation performed through the
clone (`push_traversal` raising `traversal_len p`, `new_state` raising
`len`) is observed identically through the original handle. -/
theorem clone_aliases_storage (H : StoreHeap) (hd : StateStore) (p : Nat)
    (cfg : GameState) (H1 H2 : StoreHeap)
    (hpush : heapPushTraversal H hd.clone p = some H1)
    (hnew : heapNewState H hd.clone cfg p = some H2) :
    hd.clone = hd ∧
    readLen H hd.clone = readLen H hd ∧
    readTraversalLen H hd.clone p = readTraversalLen H hd p ∧
    readTraversalLen H1 hd p = (readTraversalLen H hd p).map (· + 1) ∧
    readLen H1 hd = readLen H hd ∧
    readLen H2 hd = (readLen H hd).map (· + 1) := by
  have hcl : hd.clone = hd := rfl
  rw [hcl] at hpush hnew
  refine ⟨rfl, rfl, rfl, ?_, ?_, ?_⟩
  · unfold heapPushTraversal at hpush
    split at hpush
    · exact Option.noConfusion hpush
    · split at hpush
      · exact Option.noConfusion hpush
      · rename_i x1 cell hcell x2 pr cell2 hp2
        injection hpush with hpush
        subst hpush
        obtain ⟨e1, _⟩ := push_traversal_effects cell p pr cell2 hp2
        have hlt : hd.inner < H.length := lt_length_of_getElem?_eq_some hcell
        unfold readTraversalLen
        rw [List.getElem?_set_self hlt, hcell]
        show some (cell2.traversal_len p) = some (cell.traversal_len p + 1)
        rw [e1]
  · unfold heapPushTraversal at hpush
    split at hpush
    · exact Option.noConfusion hpush
    · split at hpush
      · exact Option.noConfusion hpush
      · rename_i x1 cell hcell x2 pr cell2 hp2
        injection hpush with hpush
        subst hpush
        obtain ⟨_, e2⟩ := push_traversal_effects cell p pr cell2 hp2
        have hlt : hd.inner < H.length := lt_length_of_getElem?_eq_some hcell
        unfold readLen
        rw [List.getElem?_set_self hlt, hcell]
        show some cell2.len = some cell.len
        rw [e2]
  · unfold heapNewState at hnew
    split at hnew
    · exact Option.noConfusion hnew
    · split at hnew
      · exact Option.noConfusion hnew
      · rename_i x1 cell hcell x2 pr cell2 hp2
        injection hnew with hnew
        subst hnew
        have e1 := new_state_len_effect cell cfg p pr cell2 hp2
        have hlt : hd.inner < H.length := lt_length_of_getElem?_eq_some hcell
        unfold readLen
        rw [List.getElem?_set_self hlt, hcell]
        show some (cell2.len) = some (cell.len + 1)
        rw [e1]

theorem pop_traversal_spec_witness :
    ((sampleStore.pop_traversal 0).isNone = true ↔
      (sampleStore.traversal_states[0]? = none ∨
        sampleStore.traversal_states[0]? = some [])) ∧
    (sampleStore.pop_traversal 0).map (fun t => t.traversal_len 0)
      = (sampleStore.pop_traversal 0).map
          (fun _ => sampleStore.traversal_len 0 - 1) ∧
    (sampleStore.pop_traversal 0).map (fun t => t.traversal_states[0]?)
      = (sampleStore.pop_traversal 0).map
          (fun _ => (sampleStore.traversal_states[0]?).map List.dropLast) ∧
    (sampleStore.pop_traversal 0).map StateStoreInternal.len
      = (sampleStore.pop_traversal 0).map (fun _ => sampleStore.len) ∧
    (sampleStore.pop_traversal 0).map (fun t => t.traversal_states[1]?)
      = (sampleStore.pop_traversal 0).map
          (fun _ => sampleStore.traversal_states[1]?) :=
  pop_traversal_spec sampleStore 0 1 (by decide)

theorem clone_aliases_storage_witness :
    (StateStore.mk 0).clone = StateStore.mk 0 ∧
    readLen [sampleStore] (StateStore.mk 0).clone
      = readLen [sampleStore] (StateStore.mk 0) ∧
    readTraversalLen [sampleStore] (StateStore.mk 0).clone 0
      = readTraversalLen [sampleStore] (StateStore.mk 0) 0 ∧
    readTraversalLen [⟨[CFRState.new sampleGameState],
        [[TraversalState.new_root 0, TraversalState.new 0 0 0,
          TraversalState.new 0 0 0]]⟩] (StateStore.mk 0) 0
      = (readTraversalLen [sampleStore] (StateStore.mk 0) 0).map (· + 1) ∧
    readLen [⟨[CFRState.new sampleGameState],
        [[TraversalState.new_root 0, TraversalState.new 0 0 0,
          TraversalState.new 0 0 0]]⟩] (StateStore.mk 0)
      = readLen [sampleStore] (StateStore.mk 0) ∧
    readLen [⟨[CFRState.new sampleGameState, CFRState.new sampleGameState2],
        [[TraversalState.new_root 0, TraversalState.new 0 0 0,
          TraversalState.new 0 0 0], [TraversalState.new_root 0]]⟩]
        (StateStore.mk 0)
      = (readLen [sampleStore] (StateStore.mk 0)).map (· + 1) :=
  clone_aliases_storage [sampleStore] (StateStore.mk 0) 0 sampleGameState2
    _ _ rfl rfl
